import Mathlib

/-!
Shallow embedding of the Discovery & Polling Coordination Engine of the
`miningops` integration (files `discovery_bitaxe.py` and
`coordinator_bitaxe.py`), together with proofs settling the frozen claims
about its specification.

JSON response bodies are modelled as flat objects: association lists from
string keys to atomic values; the one nested object the code ever builds
(the `stats` sub-object of a merged device state) gets its own constructor.
Network effects are modelled by passing each HTTP request's outcome as an
explicit parameter.
-/

namespace MiningOps

/-- An atomic JSON value (boolean, string, or number). -/
inductive JAtom where
  | bool (b : Bool)
  | str (s : String)
  | num (n : Int)
deriving DecidableEq, Repr

/-- A flat JSON object, as decoded from a device's HTTP response body. -/
abbrev JObjA := List (String × JAtom)

/-- A value stored in a published device-state record: either an atom or the
nested `stats` object built by `fetch_miner_data`. -/
inductive JVal where
  | atom (a : JAtom)
  | obj (fields : JObjA)
deriving DecidableEq, Repr

/-- A published per-device state record (`dict[str, Any]` in the source). -/
abbrev Entry := List (String × JVal)

/-- The error classes the probe/fetch code distinguishes in its `except`
clauses: `asyncio.TimeoutError` (connect or read), `aiohttp.ClientError`
(refusal, reset, malformed JSON raised by `response.json()`), and the
catch-all `Exception`. -/
inductive NetError where
  | connectTimeout
  | readTimeout
  | connRefused
  | connReset
  | other
deriving DecidableEq, Repr

/-- The outcome of one HTTP GET: either a response with a status code and a
decoded JSON body (`none` body = the body failed to decode as JSON, which
makes `response.json()` raise), or a transport-level error. -/
inductive HttpOutcome where
  | resp (status : Nat) (body : Option JObjA)
  | err (e : NetError)
deriving DecidableEq, Repr

/-- Python's `k in data` membership test on a dict. -/
def hasKey {α : Type} (o : List (String × α)) (k : String) : Bool :=
  o.any (fun kv => kv.1 == k)

/-- `BitaxeDiscovery._probe_ip` (discovery_bitaxe.py lines 58-90): returns
the probed ip on HTTP 200 whose JSON body contains both `deviceModel` and
`hashRate`; every exception (timeout, client error including malformed
JSON, unexpected error) and every other response falls through to
`return None`. -/
def probe_ip (ip : String) (outcome : HttpOutcome) : Option String :=
  match outcome with
  | .resp status body =>
      if status == 200 then
        match body with
        | some data =>
            if hasKey data "deviceModel" && hasKey data "hashRate" then some ip
            else none
        | none => none
      else none
  | .err _ => none

/-- Split a character list at every occurrence of a separator character
(the pieces keep their order, separators are dropped; `n` separators give
`n + 1` pieces). -/
def splitOnChar (sep : Char) : List Char → List (List Char)
  | [] => [[]]
  | c :: cs =>
      match splitOnChar sep cs with
      | [] => if c = sep then [[], []] else [[c]]
      | piece :: rest =>
          if c = sep then [] :: piece :: rest else (c :: piece) :: rest

/-- Decimal digit accumulation over a character list. -/
def digitsToNat : Nat → List Char → Option Nat
  | acc, [] => some acc
  | acc, c :: cs =>
      if c.isDigit then digitsToNat (acc * 10 + (c.toNat - 48)) cs
      else none

/-- A non-empty all-digit character list as a number. -/
def decimalValue (l : List Char) : Option Nat :=
  match l with
  | [] => none
  | _ => digitsToNat 0 l

/-- One dotted-quad octet as accepted by `ipaddress.IPv4Network`: one to
three decimal digits, no leading zero, value at most 255. -/
def parseOctet (l : List Char) : Option Nat :=
  match l with
  | '0' :: _ :: _ => none
  | _ =>
      if l.length ≤ 3 then
        match decimalValue l with
        | some n => if n ≤ 255 then some n else none
        | none => none
      else none

/-- A dotted-quad IPv4 address as a 32-bit value. -/
def parseIPv4 (l : List Char) : Option Nat :=
  match splitOnChar '.' l with
  | [a, b, c, d] =>
      match parseOctet a, parseOctet b, parseOctet c, parseOctet d with
      | some x, some y, some z, some w =>
          some (((x * 256 + y) * 256 + z) * 256 + w)
      | _, _, _, _ => none
  | _ => none

/-- A decimal prefix length, value at most 32 (Python accepts any digit
string here and converts with `int`). -/
def parsePrefixLen (l : List Char) : Option Nat :=
  match decimalValue l with
  | some n => if n ≤ 32 then some n else none
  | none => none

/-- `ipaddress.IPv4Network(subnet, strict=False)` restricted to the
`A.B.C.D/p` and bare `A.B.C.D` forms the integration's configuration uses:
yields the masked network address and the prefix length, or `none` when
the string is malformed (the constructor raises `ValueError`). -/
def parseIPv4Network (s : String) : Option (Nat × Nat) :=
  match splitOnChar '/' s.data with
  | [addr] =>
      match parseIPv4 addr with
      | some a => some (a, 32)
      | none => none
  | [addr, plen] =>
      match parseIPv4 addr, parsePrefixLen plen with
      | some a, some p => some (a / 2 ^ (32 - p) * 2 ^ (32 - p), p)
      | _, _ => none
  | _ => none

/-- `IPv4Network.hosts()`: for prefix lengths up to 30 every address of the
network except the first (network) and last (broadcast); a /31 yields both
of its addresses and a /32 yields its single address. -/
def hostsOfNetwork (net plen : Nat) : List Nat :=
  let size := 2 ^ (32 - plen)
  if 31 ≤ plen then (List.range size).map (fun i => net + i)
  else (List.range (size - 2)).map (fun i => net + 1 + i)

/-- `str(ip)` on an `IPv4Address`: dotted-quad rendering. -/
def addrToString (a : Nat) : String :=
  toString (a / 16777216 % 256) ++ "." ++ toString (a / 65536 % 256) ++ "."
    ++ toString (a / 256 % 256) ++ "." ++ toString (a % 256)

/-- The list of addresses `BitaxeDiscovery.discover` creates probe tasks
for: `[self._probe_ip(str(ip)) for ip in network.hosts()]`, or nothing at
all when the subnet fails to parse. -/
def probedAddresses (subnet : String) : List String :=
  match parseIPv4Network subnet with
  | none => []
  | some (net, plen) => (hostsOfNetwork net plen).map addrToString

/-- `BitaxeDiscovery.discover` (discovery_bitaxe.py lines 31-56): parse the
subnet (malformed input is logged and yields `[]`), probe every host
address, gather every result, and keep exactly the string results. The
per-address network outcome is supplied by `outcomes`. -/
def discover (subnet : String) (outcomes : String → HttpOutcome) : List String :=
  (probedAddresses subnet).filterMap (fun ip => probe_ip ip (outcomes ip))

/-- `BitaxeCoordinator._fetch_api` (coordinator_bitaxe.py lines 139-169):
the decoded JSON body on HTTP 200, `none` on any other status and on every
exception (timeout, client error, JSON decode failure, unexpected error). -/
def fetch_api (outcome : HttpOutcome) : Option JObjA :=
  match outcome with
  | .resp status body => if status == 200 then body else none
  | .err _ => none

/-- Write-or-append a key in an association list, mirroring Python dict
assignment and `**` merge: a key already bound keeps its position and gets
the new value, a new key is appended at the end. -/
def dictSet {α : Type} : List (String × α) → String → α → List (String × α)
  | [], k, v => [(k, v)]
  | kv :: tl, k, v => if kv.1 == k then (k, v) :: tl else kv :: dictSet tl k v

/-- First-bound lookup in an association list (Python dict lookup, given
that `dictSet` keeps keys unique once built from the empty dict). -/
def dictGet {α : Type} : List (String × α) → String → Option α
  | [], _ => none
  | kv :: tl, k => if kv.1 == k then some kv.2 else dictGet tl k

/-- The dict literal `{"available": True, "ip": ip, **info}`: the base
fields, then every info field merged on top (an info key equal to an
earlier key overrides it). -/
def mergeInfo (ip : String) (info : JObjA) : Entry :=
  info.foldl (fun acc kv => dictSet acc kv.1 (JVal.atom kv.2))
    [("available", JVal.atom (JAtom.bool true)), ("ip", JVal.atom (JAtom.str ip))]

/-- `BitaxeCoordinator._fetch_miner_data` (coordinator_bitaxe.py lines
110-137): fetch info and stats; `None` when info failed; otherwise the
merged record, with `data["stats"] = stats` only when `stats` is truthy
(a non-empty dict). Every exception is caught and yields `None`. -/
def fetch_miner_data (ip : String) (infoOutcome statsOutcome : HttpOutcome) :
    Option Entry :=
  let info := fetch_api infoOutcome
  let stats := fetch_api statsOutcome
  match info with
  | none => none
  | some i =>
      let merged := mergeInfo ip i
      match stats with
      | some s => if s.isEmpty then some merged else some (dictSet merged "stats" (JVal.obj s))
      | none => some merged

/-- The record `{"available": False, "error": str(data)}` written when a
per-device fetch produced `None` (so `str(data)` is the string `"None"`). -/
def noneErrorEntry : Entry :=
  [("available", JVal.atom (JAtom.bool false)),
   ("error", JVal.atom (JAtom.str "None"))]

/-- The value `_async_update_data` stores for one address given its fetch
result (`self.miners[ip] = data` for a dict, the error record otherwise). -/
def publishedValue (r : Option Entry) : Entry :=
  match r with
  | some d => d
  | none => noneErrorEntry

/-- `BitaxeCoordinator._async_update_data` (coordinator_bitaxe.py lines
91-108): for every active address, write its fetch result (or the error
record) into the `miners` map; existing entries for other addresses are
left in place and never deleted. -/
def async_update_data (miners : List (String × Entry)) (active : List String)
    (fetch : String → Option Entry) : List (String × Entry) :=
  active.foldl (fun m ip => dictSet m ip (publishedValue (fetch ip))) miners

/-- The coordinator's reconciliation state: the mutable `active_miners` set
and the fixed `configured_miners` set. -/
structure RecoState where
  active : Finset String
  configured : Finset String
deriving DecidableEq

/-- `BitaxeCoordinator.__init__` (coordinator_bitaxe.py lines 53-56):
`self.active_miners = set(self.configured_miners)`. -/
def initRecoState (configured : Finset String) : RecoState :=
  { active := configured, configured := configured }

/-- The effect of one reconciliation body: the updated state, the set of
addresses fired as `miner_discovered` events (one each), and the set fired
as `miner_lost` events (one each). -/
structure CycleResult where
  state : RecoState
  discovered : Finset String
  lost : Finset String
deriving DecidableEq

/-- The diff-and-notify body of `BitaxeCoordinator._periodic_scan`
(coordinator_bitaxe.py lines 189-211): `new_miners = found_set -
active_miners`, each added with a `discovered` event; then `lost_miners =
active_miners - found_set - configured_miners` computed against the
already-augmented active set, each discarded with a `lost` event. -/
def reconcile (st : RecoState) (found : Finset String) : CycleResult :=
  let newMiners := found \ st.active
  let activeMid := st.active ∪ newMiners
  let lostMiners := (activeMid \ found) \ st.configured
  { state := { active := activeMid \ lostMiners, configured := st.configured },
    discovered := newMiners,
    lost := lostMiners }

/-- What one iteration of the `while True` loop delivers to the
reconciliation body: either the scan coroutine's returned list, or the fact
that an exception escaped it (caught by the loop's `except Exception`
clause, which only logs and continues). -/
inductive ScanOutcome where
  | ok (found : List String)
  | raised
deriving DecidableEq

/-- One iteration of `_periodic_scan` (coordinator_bitaxe.py lines
178-217): a raised exception skips the body (state kept, no events);
a returned list is converted to a set and reconciled. -/
def scan_cycle (st : RecoState) (res : ScanOutcome) : CycleResult :=
  match res with
  | .raised => { state := st, discovered := ∅, lost := ∅ }
  | .ok found => reconcile st found.toFinset

/-- One actual scan iteration of `_periodic_scan` with the discovery
inlined: `discover` catches the malformed-subnet `ValueError` itself and
returns a list in every modelled case, so the body always runs. -/
def periodic_scan_cycle (st : RecoState) (subnet : String)
    (outcomes : String → HttpOutcome) : CycleResult :=
  scan_cycle st (ScanOutcome.ok (discover subnet outcomes))

/-!
The concurrency discipline of `BitaxeDiscovery` (discovery_bitaxe.py lines
29 and 58-90): `self.sem = asyncio.Semaphore(concurrency)` and every
`_probe_ip` body runs inside `async with self.sem`. Modelled as a
transition system: each probe task is `waiting` until it acquires a
semaphore slot, `holding` while its connection attempt is in flight, and
`done` after the implicit release on exit from the `async with` block.
-/

/-- The lifecycle phase of one probe task. -/
inductive ProbePhase where
  | waiting
  | holding
  | done
deriving DecidableEq

/-- A snapshot of one scan's concurrency state: the phase of every probe
task and the semaphore's available slot count. -/
structure SemState where
  phases : List ProbePhase
  avail : Nat
deriving DecidableEq

/-- Scan start: every probe task created and waiting, the semaphore
holding its full capacity. -/
def initSemState (numProbes cap : Nat) : SemState :=
  { phases := List.replicate numProbes ProbePhase.waiting, avail := cap }

/-- The number of probes in flight: tasks inside the `async with` block. -/
def inFlight (s : SemState) : Nat :=
  s.phases.count ProbePhase.holding

/-- The two scheduler-visible transitions of the semaphore discipline: a
waiting probe acquires a free slot before opening its connection, and a
holding probe releases its slot when its body finishes. -/
inductive SemStep : SemState → SemState → Prop where
  | acquire (s : SemState) (i : Nat) (h : s.phases.get? i = some ProbePhase.waiting)
      (ha : 0 < s.avail) :
      SemStep s { phases := s.phases.set i ProbePhase.holding, avail := s.avail - 1 }
  | release (s : SemState) (i : Nat) (h : s.phases.get? i = some ProbePhase.holding) :
      SemStep s { phases := s.phases.set i ProbePhase.done, avail := s.avail + 1 }

/-- The states one scan with `numProbes` tasks and capacity `cap` can
reach. -/
inductive SemReachable (numProbes cap : Nat) : SemState → Prop where
  | init : SemReachable numProbes cap (initSemState numProbes cap)
  | step {s t : SemState} : SemReachable numProbes cap s → SemStep s t →
      SemReachable numProbes cap t

/-- The spec's reading of a probe match, written from its words: the
response has status 200 and a well-formed JSON body carrying both required
signature fields. Stated separately from `probe_ip` so the two can be
compared. -/
def specProbeMatch (outcome : HttpOutcome) : Bool :=
  match outcome with
  | .resp status (some body) =>
      status == 200 && (hasKey body "deviceModel" && hasKey body "hashRate")
  | _ => false

/-- The spec's reading of the usable hosts of a network, written from its
words: every address of the network except the network address itself and
the broadcast (last) address. Stated separately from `hostsOfNetwork` so
the two can be compared. -/
def specUsableHosts (net plen : Nat) : List Nat :=
  ((List.range (2 ^ (32 - plen))).map (fun i => net + i)).filter
    (fun a => decide (a ≠ net ∧ a ≠ net + (2 ^ (32 - plen) - 1)))

/-! Association-list (Python dict) helper lemmas. -/

theorem dictGet_dictSet_self {α : Type} (m : List (String × α)) (k : String) (v : α) :
    dictGet (dictSet m k v) k = some v := by
  induction m with
  | nil => simp [dictSet, dictGet]
  | cons kv tl ih =>
      by_cases h : kv.1 = k
      · simp [dictSet, dictGet, h]
      · simp [dictSet, dictGet, h, ih]

theorem dictGet_dictSet_ne {α : Type} (m : List (String × α)) {k k' : String} (v : α)
    (h : k' ≠ k) : dictGet (dictSet m k v) k' = dictGet m k' := by
  induction m with
  | nil => simp [dictSet, dictGet, Ne.symm h]
  | cons kv tl ih =>
      by_cases hk : kv.1 = k
      · simp [dictSet, dictGet, hk, Ne.symm h]
      · simp [dictSet, dictGet, hk, ih]

theorem hasKey_dictSet {α : Type} (m : List (String × α)) (k k' : String) (v : α) :
    hasKey (dictSet m k v) k' = (hasKey m k' || k == k') := by
  induction m with
  | nil => simp [dictSet, hasKey]
  | cons kv tl ih =>
      by_cases hk : kv.1 = k
      · simp [dictSet, hasKey, hk, List.any_cons] at ih ⊢
        tauto
      · simp [dictSet, hasKey, hk, List.any_cons] at ih ⊢
        rw [ih, Bool.or_assoc]

theorem update_get_of_not_mem {m : List (String × Entry)} {active : List String}
    {f : String → Option Entry} {ip : String} (h : ip ∉ active) :
    dictGet (async_update_data m active f) ip = dictGet m ip := by
  induction active generalizing m with
  | nil => rfl
  | cons a tl ih =>
      have hne : ip ≠ a := fun he => h (he ▸ List.mem_cons_self a tl)
      have htl : ip ∉ tl := fun he => h (List.mem_cons_of_mem a he)
      calc dictGet (async_update_data (dictSet m a (publishedValue (f a))) tl f) ip
          = dictGet (dictSet m a (publishedValue (f a))) ip := ih htl
        _ = dictGet m ip := dictGet_dictSet_ne _ _ hne

theorem update_get_of_mem {m : List (String × Entry)} {active : List String}
    {f : String → Option Entry} {ip : String} (h : ip ∈ active) :
    dictGet (async_update_data m active f) ip = some (publishedValue (f ip)) := by
  induction active generalizing m with
  | nil => cases h
  | cons a tl ih =>
      by_cases htl : ip ∈ tl
      · exact ih htl
      · have hip : ip = a := by
          rcases List.mem_cons.mp h with he | he
          · exact he
          · exact absurd he htl
        subst hip
        calc dictGet (async_update_data (dictSet m ip (publishedValue (f ip))) tl f) ip
            = dictGet (dictSet m ip (publishedValue (f ip))) ip := update_get_of_not_mem htl
          _ = some (publishedValue (f ip)) := dictGet_dictSet_self _ _ _

theorem update_hasKey_mono {m : List (String × Entry)} {active : List String}
    {f : String → Option Entry} {k : String} (h : hasKey m k = true) :
    hasKey (async_update_data m active f) k = true := by
  induction active generalizing m with
  | nil => exact h
  | cons a tl ih =>
      exact ih (by rw [hasKey_dictSet, h, Bool.true_or])

/-! Reconciliation claims. -/

/-- Claim C2: on every reconciliation cycle with scan result `found`, the
set added to ActiveSet (each member fired once as `discovered`) is exactly
`found` minus the prior ActiveSet, the set removed (each member fired once
as `lost`) is exactly the prior ActiveSet minus `found` minus
ConfiguredSet, and in particular from ActiveSet `{A, B}` with
ConfiguredSet `{A}` and scan result `{C}` the cycle emits `lost` for `B`,
`discovered` for `C`, and leaves ActiveSet equal to `{A, C}`. -/
theorem reconcile_diff_exact :
    (∀ (active configured found : Finset String),
        (reconcile ⟨active, configured⟩ found).discovered = found \ active ∧
        (reconcile ⟨active, configured⟩ found).lost = (active \ found) \ configured ∧
        (reconcile ⟨active, configured⟩ found).state.active =
          (active ∪ found) \ ((active \ found) \ configured)) ∧
      reconcile ⟨{"A", "B"}, {"A"}⟩ {"C"} =
        ⟨⟨{"A", "C"}, {"A"}⟩, {"C"}, {"B"}⟩ := by
  constructor
  · intro active configured found
    refine ⟨rfl, ?_, ?_⟩
    · ext x
      simp [reconcile]
      tauto
    · ext x
      simp [reconcile]
      tauto
  · decide

/-- Claim C3: ActiveSet is a superset of ConfiguredSet at all times — it
is initialized to ConfiguredSet (`initRecoState`), and a reconciliation
cycle preserves the superset whatever the scan found (the only place the
source mutates `active_miners` is the reconciliation body). -/
theorem configured_subset_active (c : Finset String) (st : RecoState) (found : Finset String)
    (h : st.configured ⊆ st.active) :
    (initRecoState c).active = c ∧ st.configured ⊆ (reconcile st found).state.active := by
  refine ⟨rfl, ?_⟩
  intro x hx
  have hxa : x ∈ st.active := h hx
  simp [reconcile]
  tauto

theorem configured_subset_active_witness :
    (initRecoState {"10.0.0.1"}).active = {"10.0.0.1"} ∧
      ({"10.0.0.1"} : Finset String) ⊆
        (reconcile ⟨{"10.0.0.1", "10.0.0.2"}, {"10.0.0.1"}⟩ {"10.0.0.3"}).state.active :=
  configured_subset_active {"10.0.0.1"} ⟨{"10.0.0.1", "10.0.0.2"}, {"10.0.0.1"}⟩ {"10.0.0.3"}
    (by decide)

/-- Claim C7: reconciliation is idempotent — re-running a cycle against an
unchanged live set computes empty newly-found and lost sets, hence emits
zero notifications and leaves the state unchanged, whatever the starting
ActiveSet. -/
theorem reconcile_idempotent (st : RecoState) (found : Finset String) :
    (reconcile (reconcile st found).state found).discovered = ∅ ∧
    (reconcile (reconcile st found).state found).lost = ∅ ∧
    (reconcile (reconcile st found).state found).state.active =
      (reconcile st found).state.active ∧
    (reconcile (reconcile st found).state found).state.configured =
      (reconcile st found).state.configured := by
  refine ⟨?_, ?_, ?_, rfl⟩
  · ext x
    simp [reconcile]
    tauto
  · ext x
    simp [reconcile]
    tauto
  · ext x
    simp [reconcile]
    tauto

/-- Claim C1, amended: a cycle whose scan coroutine raises is skipped
(state kept, no notifications, loop continues); but a malformed subnet
does not raise — `discover` returns the empty list, and the cycle
processes it as a normal empty scan, removing every active non-configured
address with a `lost` notification and shrinking ActiveSet to
ActiveSet ∩ ConfiguredSet. -/
theorem scan_failure_cycle_semantics (st : RecoState) (subnet : String)
    (outcomes : String → HttpOutcome) (hmal : parseIPv4Network subnet = none) :
    scan_cycle st ScanOutcome.raised = ⟨st, ∅, ∅⟩ ∧
    discover subnet outcomes = [] ∧
    (periodic_scan_cycle st subnet outcomes).discovered = ∅ ∧
    (periodic_scan_cycle st subnet outcomes).lost = st.active \ st.configured ∧
    (periodic_scan_cycle st subnet outcomes).state.active = st.active ∩ st.configured := by
  have hd : discover subnet outcomes = [] := by
    simp [discover, probedAddresses, hmal]
  refine ⟨rfl, hd, ?_, ?_, ?_⟩
  · simp [periodic_scan_cycle, scan_cycle, hd, reconcile]
  · simp [periodic_scan_cycle, scan_cycle, hd, reconcile]
  · simp [periodic_scan_cycle, scan_cycle, hd, reconcile, Finset.sdiff_sdiff_self_left]

/-- Claim C1 fails as stated: with ActiveSet `{10.0.0.5, 10.0.0.9}`,
ConfiguredSet `{10.0.0.5}` and the malformed subnet string
`"not-a-subnet"`, the cycle is not skipped — ActiveSet changes and a
`lost` notification fires. -/
theorem malformed_subnet_cycle_not_skipped :
    (periodic_scan_cycle ⟨{"10.0.0.5", "10.0.0.9"}, {"10.0.0.5"}⟩ "not-a-subnet"
        (fun _ => HttpOutcome.err NetError.connRefused)).state.active ≠
      ({"10.0.0.5", "10.0.0.9"} : Finset String) ∧
    (periodic_scan_cycle ⟨{"10.0.0.5", "10.0.0.9"}, {"10.0.0.5"}⟩ "not-a-subnet"
        (fun _ => HttpOutcome.err NetError.connRefused)).lost ≠ (∅ : Finset String) := by
  decide

theorem scan_failure_cycle_semantics_witness :
    scan_cycle ⟨{"10.0.0.5", "10.0.0.9"}, {"10.0.0.5"}⟩ ScanOutcome.raised =
        ⟨⟨{"10.0.0.5", "10.0.0.9"}, {"10.0.0.5"}⟩, ∅, ∅⟩ ∧
      discover "not-a-subnet" (fun _ => HttpOutcome.err NetError.other) = [] ∧
      (periodic_scan_cycle ⟨{"10.0.0.5", "10.0.0.9"}, {"10.0.0.5"}⟩ "not-a-subnet"
          (fun _ => HttpOutcome.err NetError.other)).discovered = ∅ ∧
      (periodic_scan_cycle ⟨{"10.0.0.5", "10.0.0.9"}, {"10.0.0.5"}⟩ "not-a-subnet"
          (fun _ => HttpOutcome.err NetError.other)).lost =
        ({"10.0.0.5", "10.0.0.9"} : Finset String) \ {"10.0.0.5"} ∧
      (periodic_scan_cycle ⟨{"10.0.0.5", "10.0.0.9"}, {"10.0.0.5"}⟩ "not-a-subnet"
          (fun _ => HttpOutcome.err NetError.other)).state.active =
        ({"10.0.0.5", "10.0.0.9"} : Finset String) ∩ {"10.0.0.5"} :=
  scan_failure_cycle_semantics ⟨{"10.0.0.5", "10.0.0.9"}, {"10.0.0.5"}⟩ "not-a-subnet"
    (fun _ => HttpOutcome.err NetError.other) (by decide)

/-! Prober and scanner claims. -/

/-- Claim C5: the prober returns the probed address exactly when the HTTP
response has status 200 and a well-formed JSON body carrying both
signature fields; every other outcome — timeouts, refused or reset
connections, malformed JSON, non-200 status, predicate false — yields the
one `none` result, so those outcomes are indistinguishable to the
caller. -/
theorem probe_ip_eq_signature (ip : String) (outcome : HttpOutcome) :
    probe_ip ip outcome = (if specProbeMatch outcome then some ip else none) := by
  rcases outcome with ⟨s, b⟩ | e
  · rcases b with _ | body
    · simp [probe_ip, specProbeMatch]
    · by_cases hs : s = 200
      · subst hs
        simp [probe_ip, specProbeMatch]
      · simp [probe_ip, specProbeMatch, hs]
  · rfl

theorem filter_range_ne_zero (m : Nat) :
    (List.range (m + 1)).filter (fun i => decide (i ≠ 0)) =
      (List.range m).map (fun i => i + 1) := by
  induction m with
  | zero => rfl
  | succ n ih =>
      rw [List.range_succ, List.filter_append, ih, List.range_succ, List.map_append]
      simp

theorem filter_range_interior (m : Nat) :
    (List.range (m + 2)).filter (fun i => decide (i ≠ 0 ∧ i ≠ m + 1)) =
      (List.range m).map (fun i => i + 1) := by
  rw [List.range_succ, List.filter_append]
  have h1 : (List.range (m + 1)).filter (fun i => decide (i ≠ 0 ∧ i ≠ m + 1)) =
      (List.range (m + 1)).filter (fun i => decide (i ≠ 0)) := by
    apply List.filter_congr
    intro i hi
    have hlt : i < m + 1 := List.mem_range.mp hi
    rw [decide_eq_decide]
    constructor
    · exact fun hc => hc.1
    · exact fun hc => ⟨hc, by omega⟩
  have h2 : List.filter (fun i => decide (i ≠ 0 ∧ i ≠ m + 1)) [m + 1] = [] := by simp
  rw [h1, h2, filter_range_ne_zero, List.append_nil]

theorem hostsOfNetwork_eq_specUsableHosts (net plen : Nat) (h : plen ≤ 30) :
    hostsOfNetwork net plen = specUsableHosts net plen := by
  obtain ⟨m, hm⟩ : ∃ m, 2 ^ (32 - plen) = m + 2 := by
    have h4 : 4 ≤ 2 ^ (32 - plen) := by
      calc 4 = 2 ^ 2 := rfl
        _ ≤ 2 ^ (32 - plen) := Nat.pow_le_pow_right (by omega) (by omega)
    exact ⟨2 ^ (32 - plen) - 2, by omega⟩
  simp only [hostsOfNetwork, specUsableHosts]
  rw [if_neg (by omega), List.filter_map, hm]
  have hc : (List.range (m + 2)).filter
        ((fun a => decide (a ≠ net ∧ a ≠ net + (m + 2 - 1))) ∘ (fun i => net + i)) =
      (List.range (m + 2)).filter (fun i => decide (i ≠ 0 ∧ i ≠ m + 1)) := by
    apply List.filter_congr
    intro i _
    simp only [Function.comp]
    rw [decide_eq_decide]
    omega
  rw [hc, filter_range_interior, List.map_map]
  have hmm : m + 2 - 2 = m := by omega
  rw [hmm]
  congr 1
  funext i
  simp only [Function.comp]
  omega

theorem hostsOfNetwork_31 (net : Nat) : hostsOfNetwork net 31 = [net, net + 1] := by
  simp [hostsOfNetwork, List.range_succ]

theorem hostsOfNetwork_32 (net : Nat) : hostsOfNetwork net 32 = [net] := by
  have h1 : List.range 1 = [0] := rfl
  simp [hostsOfNetwork, h1]

/-- Claim C6, amended: for every valid CIDR subnet one scan probes exactly
the addresses of the Python `hosts()` enumeration — for prefix lengths up
to /30 these are the usable hosts with network and broadcast excluded,
while a /31 probes both of its addresses and a /32 its single address —
maps the prober over that full list with no early exit, and returns the
matched addresses; an all-miss scan returns the empty list as a valid
non-error outcome. -/
theorem discover_census (subnet : String) (net plen : Nat) (outcomes : String → HttpOutcome)
    (hp : parseIPv4Network subnet = some (net, plen)) :
    probedAddresses subnet = (hostsOfNetwork net plen).map addrToString ∧
    (plen ≤ 30 → hostsOfNetwork net plen = specUsableHosts net plen) ∧
    (plen = 31 → hostsOfNetwork net plen = [net, net + 1]) ∧
    (plen = 32 → hostsOfNetwork net plen = [net]) ∧
    discover subnet outcomes =
      (probedAddresses subnet).filterMap (fun ip => probe_ip ip (outcomes ip)) ∧
    discover subnet (fun _ => HttpOutcome.err NetError.connectTimeout) = [] := by
  refine ⟨by simp [probedAddresses, hp],
    fun hle => hostsOfNetwork_eq_specUsableHosts net plen hle,
    fun h31 => h31 ▸ hostsOfNetwork_31 net,
    fun h32 => h32 ▸ hostsOfNetwork_32 net,
    rfl, ?_⟩
  exact List.filterMap_eq_nil_iff.mpr (fun a _ => rfl)

/-- Claim C6 fails as stated: scanning the valid subnet `10.0.0.0/31`
probes `10.0.0.0` — the network address itself — rather than excluding
it. -/
theorem slash31_probes_network_address :
    parseIPv4Network "10.0.0.0/31" = some (167772160, 31) ∧
    addrToString 167772160 = "10.0.0.0" ∧
    "10.0.0.0" ∈ probedAddresses "10.0.0.0/31" ∧
    probedAddresses "10.0.0.0/31" = ["10.0.0.0", "10.0.0.1"] := by
  decide

theorem discover_census_witness :
    probedAddresses "10.0.0.0/30" = (hostsOfNetwork 167772160 30).map addrToString ∧
    hostsOfNetwork 167772160 30 = specUsableHosts 167772160 30 ∧
    discover "10.0.0.0/30" (fun _ => HttpOutcome.err NetError.connectTimeout) = [] := by
  have h := discover_census "10.0.0.0/30" 167772160 30
      (fun _ => HttpOutcome.err NetError.connectTimeout) (by decide)
  exact ⟨h.1, h.2.1 (by omega), h.2.2.2.2.2⟩

/-! Device-fetch and publishing claims. -/

theorem foldl_dictSet_hasKey (l : JObjA) (init : Entry) (k : String) :
    hasKey (l.foldl (fun acc kv => dictSet acc kv.1 (JVal.atom kv.2)) init) k =
      (hasKey init k || hasKey l k) := by
  induction l generalizing init with
  | nil => simp [hasKey]
  | cons kv tl ih =>
      rw [List.foldl_cons, ih, hasKey_dictSet]
      simp only [hasKey, List.any_cons]
      rw [Bool.or_assoc]

theorem mergeInfo_hasKey (ip : String) (i : JObjA) (k : String) (h : hasKey i k = true) :
    hasKey (mergeInfo ip i) k = true := by
  rw [mergeInfo, foldl_dictSet_hasKey, h, Bool.or_true]

theorem dictSet_forall {α : Type} {P : α → Prop} {m : List (String × α)}
    (hm : ∀ kv ∈ m, P kv.2) {k : String} {v : α} (hv : P v) :
    ∀ kv ∈ dictSet m k v, P kv.2 := by
  induction m with
  | nil =>
      intro kv hkv
      simp [dictSet] at hkv
      subst hkv
      exact hv
  | cons a tl ih =>
      intro kv hkv
      by_cases ha : a.1 = k
      · simp [dictSet, ha] at hkv
        rcases hkv with h1 | h1
        · subst h1; exact hv
        · exact hm kv (List.mem_cons_of_mem a h1)
      · simp [dictSet, ha] at hkv
        rcases hkv with h1 | h1
        · rw [h1]; exact hm a (List.mem_cons_self a tl)
        · exact ih (fun kv2 h2 => hm kv2 (List.mem_cons_of_mem a h2)) kv h1

theorem foldl_dictSet_forall {P : JVal → Prop} (l : JObjA) (init : Entry)
    (h : ∀ kv ∈ init, P kv.2) (hf : ∀ a : JAtom, P (JVal.atom a)) :
    ∀ kv ∈ l.foldl (fun acc kv => dictSet acc kv.1 (JVal.atom kv.2)) init, P kv.2 := by
  induction l generalizing init with
  | nil => exact h
  | cons kv tl ih => exact ih _ (dictSet_forall h (hf kv.2))

theorem dictGet_mem {α : Type} {m : List (String × α)} {k : String} {v : α}
    (h : dictGet m k = some v) : (k, v) ∈ m := by
  induction m with
  | nil => cases h
  | cons kv tl ih =>
      by_cases hk : kv.1 = k
      · simp [dictGet, hk] at h
        subst hk
        rw [← h]
        exact List.mem_cons_self kv tl
      · simp [dictGet, hk] at h
        exact List.mem_cons_of_mem _ (ih h)

theorem mergeInfo_no_obj (ip : String) (i : JObjA) (k : String) (s : JObjA) :
    dictGet (mergeInfo ip i) k ≠ some (JVal.obj s) := by
  intro hget
  have hmem := dictGet_mem hget
  have hatom := foldl_dictSet_forall (P := fun v => ∃ a, v = JVal.atom a) i
      [("available", JVal.atom (JAtom.bool true)), ("ip", JVal.atom (JAtom.str ip))]
      (by intro kv hkv
          simp at hkv
          rcases hkv with h1 | h1 <;> rw [h1] <;> exact ⟨_, rfl⟩)
      (fun a => ⟨a, rfl⟩)
  obtain ⟨a, ha⟩ := hatom (k, JVal.obj s) hmem
  cases ha

theorem foldl_dictSet_get_absent (l : JObjA) (init : Entry) (k : String)
    (h : ∀ kv ∈ l, kv.1 ≠ k) :
    dictGet (l.foldl (fun acc kv => dictSet acc kv.1 (JVal.atom kv.2)) init) k =
      dictGet init k := by
  induction l generalizing init with
  | nil => rfl
  | cons kv tl ih =>
      rw [List.foldl_cons, ih _ (fun kv2 h2 => h kv2 (List.mem_cons_of_mem kv h2)),
        dictGet_dictSet_ne]
      exact Ne.symm (h kv (List.mem_cons_self kv tl))

theorem mergeInfo_available (ip : String) (i : JObjA) (h : hasKey i "available" = false) :
    dictGet (mergeInfo ip i) "available" = some (JVal.atom (JAtom.bool true)) := by
  rw [mergeInfo, foldl_dictSet_get_absent]
  · rfl
  · intro kv hkv heq
    rw [hasKey, List.any_eq_false] at h
    exact h kv hkv (by rw [heq]; exact beq_self_eq_true _)

/-- Claim C4, amended: if the info request fails for any reason the fetch
returns `None` and the published record is `available=false` with an error
string, regardless of the stats outcome; if the info request succeeds and
the stats request fails, the fetch returns the merged info record with
every info field present and no stats sub-object, and it reads
`available=true` provided the info payload does not itself contain an
`available` field (the `**info` dict merge lets such a field overwrite the
coordinator-set flag). -/
theorem fetch_info_stats_asymmetry (ip : String) (infoOutcome statsOutcome : HttpOutcome) :
    (fetch_api infoOutcome = none →
      fetch_miner_data ip infoOutcome statsOutcome = none ∧
      publishedValue (fetch_miner_data ip infoOutcome statsOutcome) = noneErrorEntry ∧
      dictGet noneErrorEntry "available" = some (JVal.atom (JAtom.bool false)) ∧
      dictGet noneErrorEntry "error" = some (JVal.atom (JAtom.str "None"))) ∧
    (∀ i, fetch_api infoOutcome = some i → fetch_api statsOutcome = none →
      fetch_miner_data ip infoOutcome statsOutcome = some (mergeInfo ip i) ∧
      (∀ k, hasKey i k = true → hasKey (mergeInfo ip i) k = true) ∧
      (∀ s, dictGet (mergeInfo ip i) "stats" ≠ some (JVal.obj s)) ∧
      (hasKey i "available" = false →
        dictGet (mergeInfo ip i) "available" = some (JVal.atom (JAtom.bool true)))) := by
  constructor
  · intro hnone
    have hfd : fetch_miner_data ip infoOutcome statsOutcome = none := by
      simp [fetch_miner_data, hnone]
    exact ⟨hfd, by rw [hfd]; rfl, rfl, rfl⟩
  · intro i hinfo hstats
    have hfd : fetch_miner_data ip infoOutcome statsOutcome = some (mergeInfo ip i) := by
      simp [fetch_miner_data, hinfo, hstats]
    exact ⟨hfd, fun k hk => mergeInfo_hasKey ip i k hk,
      fun s => mergeInfo_no_obj ip i "stats" s,
      fun hna => mergeInfo_available ip i hna⟩

/-- Claim C4 fails as stated: with an info response whose payload itself
carries `available: false`, the info request succeeds and the stats
request fails, yet the resulting record reads `available=false`, because
the `**info` merge overwrites the coordinator-set flag. -/
theorem info_available_override :
    fetch_api (HttpOutcome.resp 200 (some [("available", JAtom.bool false)])) =
        some [("available", JAtom.bool false)] ∧
      fetch_api (HttpOutcome.err NetError.readTimeout) = none ∧
      fetch_miner_data "10.0.0.7" (HttpOutcome.resp 200 (some [("available", JAtom.bool false)]))
          (HttpOutcome.err NetError.readTimeout) =
        some [("available", JVal.atom (JAtom.bool false)),
          ("ip", JVal.atom (JAtom.str "10.0.0.7"))] ∧
      dictGet (publishedValue (fetch_miner_data "10.0.0.7"
          (HttpOutcome.resp 200 (some [("available", JAtom.bool false)]))
          (HttpOutcome.err NetError.readTimeout))) "available" =
        some (JVal.atom (JAtom.bool false)) := by
  decide

theorem fetch_info_stats_asymmetry_witness :
    fetch_miner_data "10.0.0.3" (HttpOutcome.err NetError.connectTimeout)
        (HttpOutcome.resp 200 (some [("power", JAtom.num 12)])) = none ∧
      fetch_miner_data "10.0.0.3"
          (HttpOutcome.resp 200 (some [("deviceModel", JAtom.str "Max")]))
          (HttpOutcome.err NetError.readTimeout) =
        some (mergeInfo "10.0.0.3" [("deviceModel", JAtom.str "Max")]) :=
  ⟨((fetch_info_stats_asymmetry "10.0.0.3" (HttpOutcome.err NetError.connectTimeout)
      (HttpOutcome.resp 200 (some [("power", JAtom.num 12)]))).1 rfl).1,
    ((fetch_info_stats_asymmetry "10.0.0.3"
      (HttpOutcome.resp 200 (some [("deviceModel", JAtom.str "Max")]))
      (HttpOutcome.err NetError.readTimeout)).2 [("deviceModel", JAtom.str "Max")]
      rfl rfl).1⟩

/-- Claim C9: the key set of the published device-state map never
shrinks — a key present before a polling cycle is present after it, and a
key no longer in ActiveSet keeps its previous entry untouched, so a lost
device's last state stays visible indefinitely. -/
theorem published_keys_never_shrink (miners : List (String × Entry)) (active : List String)
    (fetch : String → Option Entry) (k : String) (h : hasKey miners k = true) :
    hasKey (async_update_data miners active fetch) k = true ∧
    (k ∉ active → dictGet (async_update_data miners active fetch) k = dictGet miners k) :=
  ⟨update_hasKey_mono h, fun hna => update_get_of_not_mem hna⟩

theorem published_keys_never_shrink_witness :
    hasKey (async_update_data [("10.0.0.8", noneErrorEntry)] ["10.0.0.4"] (fun _ => none))
        "10.0.0.8" = true ∧
    ("10.0.0.8" ∉ ["10.0.0.4"] →
      dictGet (async_update_data [("10.0.0.8", noneErrorEntry)] ["10.0.0.4"] (fun _ => none))
          "10.0.0.8" = dictGet [("10.0.0.8", noneErrorEntry)] "10.0.0.8") :=
  published_keys_never_shrink [("10.0.0.8", noneErrorEntry)] ["10.0.0.4"] (fun _ => none)
    "10.0.0.8" (by decide)

/-- Claim C10: for every per-device fetch that fails, the published record
is exactly `available=false, error="None"` — the fetch function catches
its own exceptions and returns `None` in every failure case, so the error
field rendered by `str(data)` is always the string `"None"`. -/
theorem failed_fetch_publishes_error_none (miners : List (String × Entry))
    (active : List String) (infoOf statsOf : String → HttpOutcome) (ip : String)
    (hmem : ip ∈ active) (hfail : fetch_api (infoOf ip) = none) :
    fetch_miner_data ip (infoOf ip) (statsOf ip) = none ∧
    dictGet (async_update_data miners active
        (fun a => fetch_miner_data a (infoOf a) (statsOf a))) ip =
      some [("available", JVal.atom (JAtom.bool false)),
        ("error", JVal.atom (JAtom.str "None"))] := by
  have hfd : fetch_miner_data ip (infoOf ip) (statsOf ip) = none := by
    simp [fetch_miner_data, hfail]
  refine ⟨hfd, ?_⟩
  rw [update_get_of_mem hmem, hfd]
  rfl

theorem failed_fetch_publishes_error_none_witness :
    fetch_miner_data "10.0.0.4" (HttpOutcome.resp 500 (some [])) (HttpOutcome.resp 500 (some []))
        = none ∧
    dictGet (async_update_data [] ["10.0.0.4"]
        (fun a => fetch_miner_data a (HttpOutcome.resp 500 (some []))
          (HttpOutcome.resp 500 (some [])))) "10.0.0.4" =
      some [("available", JVal.atom (JAtom.bool false)),
        ("error", JVal.atom (JAtom.str "None"))] :=
  failed_fetch_publishes_error_none [] ["10.0.0.4"] (fun _ => HttpOutcome.resp 500 (some []))
    (fun _ => HttpOutcome.resp 500 (some [])) "10.0.0.4" (by decide) (by decide)

/-! Concurrency-gate claim. -/

theorem count_replicate_waiting (n : Nat) :
    (List.replicate n ProbePhase.waiting).count ProbePhase.holding = 0 := by
  simp [List.count_replicate]

theorem count_set_acquire {l : List ProbePhase} {i : Nat}
    (h : l.get? i = some ProbePhase.waiting) :
    (l.set i ProbePhase.holding).count ProbePhase.holding =
      l.count ProbePhase.holding + 1 := by
  induction l generalizing i with
  | nil => cases h
  | cons a tl ih =>
      cases i with
      | zero =>
          rw [List.get?_cons_zero] at h
          injection h with h
          subst h
          simp [List.set, List.count_cons]
      | succ j =>
          rw [List.get?_cons_succ] at h
          have hset : (a :: tl).set (j + 1) ProbePhase.holding =
              a :: tl.set j ProbePhase.holding := rfl
          rw [hset, List.count_cons, List.count_cons, ih h]
          omega

theorem count_set_release {l : List ProbePhase} {i : Nat}
    (h : l.get? i = some ProbePhase.holding) :
    (l.set i ProbePhase.done).count ProbePhase.holding + 1 =
      l.count ProbePhase.holding := by
  induction l generalizing i with
  | nil => cases h
  | cons a tl ih =>
      cases i with
      | zero =>
          rw [List.get?_cons_zero] at h
          injection h with h
          subst h
          simp [List.set, List.count_cons]
      | succ j =>
          rw [List.get?_cons_succ] at h
          have hset : (a :: tl).set (j + 1) ProbePhase.done =
              a :: tl.set j ProbePhase.done := rfl
          rw [hset, List.count_cons, List.count_cons, ← ih h]
          omega

theorem sem_slots_conserved {n cap : Nat} {s : SemState} (h : SemReachable n cap s) :
    inFlight s + s.avail = cap := by
  induction h with
  | init => simp [initSemState, inFlight, count_replicate_waiting]
  | step hr hstep ih =>
      cases hstep with
      | acquire i hi ha =>
          simp only [inFlight] at ih ⊢
          rw [count_set_acquire hi]
          omega
      | release i hi =>
          simp only [inFlight] at ih ⊢
          have hrel := count_set_release hi
          omega

/-- Claim C8: under the semaphore discipline of the scanner — every probe
acquires a slot from the capacity-`cap` gate before opening its connection
and releases it when done, blocking while no slot is free — no reachable
state of a scan has more than `cap` probes in flight. -/
theorem probes_in_flight_bounded {n cap : Nat} {s : SemState}
    (h : SemReachable n cap s) : inFlight s ≤ cap := by
  have hc := sem_slots_conserved h
  omega

theorem probes_in_flight_bounded_witness :
    inFlight { phases := [ProbePhase.holding, ProbePhase.waiting], avail := 0 } ≤ 1 :=
  probes_in_flight_bounded
    (SemReachable.step SemReachable.init
      (SemStep.acquire (initSemState 2 1) 0 rfl (by decide)))

end MiningOps
